import Mathlib

/-!
Verification of the face-swap batch-testing scripts: a shallow embedding of
the filename/resume/retry/logging logic of the repository, with theorems
settling the specification claims.
-/

set_option maxHeartbeats 1000000

namespace FaceSwap

/-! ## Resume scanner (`run_batch_with_progress.get_missing_tests`) -/

/-- Python `f"{n:02d}"`: zero-pad to two digits. -/
def pad2 (n : Nat) : String :=
  if n < 10 then "0" ++ toString n else toString n

/-- `combo_key = f"source_{i:02d}_to_target_{j:02d}"` as built in
`get_missing_tests`. -/
def comboKey (i j : Nat) : String :=
  "source_" ++ pad2 i ++ "_to_" ++ "target_" ++ pad2 j

/-- The result-file path `f"test-results/single-face-results/{combo}_{api}_result.jpg"`. -/
def resultPath (combo api : String) : String :=
  "test-results/single-face-results/" ++ combo ++ "_" ++ api ++ "_result.jpg"

/-- One entry of the `missing_tests` list built by `get_missing_tests`. -/
structure MissingTest where
  combo : String
  api : String
  source_path : String
  target_path : String
deriving DecidableEq, Repr

/-- Inner loop of `get_missing_tests`: for one source (index `i`, path `sp`)
walk the target list with 1-based index `j`, appending a v2 entry and a v4
entry for each combination whose result file is absent from `fs`. -/
def missingInner (fs : List String) (i : Nat) (sp : String) :
    Nat → List String → List MissingTest
  | _, [] => []
  | j, tp :: rest =>
    let combo := comboKey i j
    (if fs.contains (resultPath combo "v2") then []
     else [⟨combo, "v2", sp, tp⟩]) ++
    (if fs.contains (resultPath combo "v4") then []
     else [⟨combo, "v4", sp, tp⟩]) ++
    missingInner fs i sp (j + 1) rest

/-- Outer loop of `get_missing_tests`: walk the source list with 1-based
index `i`. -/
def missingOuter (fs : List String) (targets : List String) :
    Nat → List String → List MissingTest
  | _, [] => []
  | i, sp :: rest =>
    missingInner fs i sp 1 targets ++ missingOuter fs targets (i + 1) rest

/-- `get_missing_tests` from `run_batch_with_progress.py`, with the sorted
glob results abstracted as the lists `sources` and `targets` and the set of
files present on disk abstracted as the list `fs`. -/
def get_missing_tests (sources targets fs : List String) : List MissingTest :=
  missingOuter fs targets 1 sources

/-- Inner enumeration of every expected (combination, API) pair for one
source, in target order, v2 before v4. -/
def expectedInner (i : Nat) (sp : String) : Nat → List String → List MissingTest
  | _, [] => []
  | j, tp :: rest =>
    let combo := comboKey i j
    [⟨combo, "v2", sp, tp⟩, ⟨combo, "v4", sp, tp⟩] ++ expectedInner i sp (j + 1) rest

/-- All expected (combination, API) pairs in the nested
source-then-target iteration order. -/
def expectedOuter (targets : List String) : Nat → List String → List MissingTest
  | _, [] => []
  | i, sp :: rest => expectedInner i sp 1 targets ++ expectedOuter targets (i + 1) rest

/-- The full expected enumeration derived from the source and target lists. -/
def expectedTests (sources targets : List String) : List MissingTest :=
  expectedOuter targets 1 sources

/-- An expected pair survives into `missing_tests` exactly when its result
file is absent. -/
def fileAbsent (fs : List String) (m : MissingTest) : Bool :=
  !(fs.contains (resultPath m.combo m.api))

theorem missingInner_eq_filter (fs : List String) (i : Nat) (sp : String) :
    ∀ (j : Nat) (targets : List String),
      missingInner fs i sp j targets =
        (expectedInner i sp j targets).filter (fileAbsent fs) := by
  intro j targets
  induction targets generalizing j with
  | nil => simp [missingInner, expectedInner]
  | cons tp rest ih =>
    simp only [missingInner, expectedInner, List.filter_append, ih]
    by_cases h2 : resultPath (comboKey i j) "v2" ∈ fs <;>
      by_cases h4 : resultPath (comboKey i j) "v4" ∈ fs <;>
        simp [h2, h4, fileAbsent, List.filter]

theorem missingOuter_eq_filter (fs targets : List String) :
    ∀ (i : Nat) (sources : List String),
      missingOuter fs targets i sources =
        (expectedOuter targets i sources).filter (fileAbsent fs) := by
  intro i sources
  induction sources generalizing i with
  | nil => simp [missingOuter, expectedOuter]
  | cons sp rest ih =>
    simp only [missingOuter, expectedOuter, List.filter_append, ih,
      missingInner_eq_filter]

/-- **C1.** Resume computation is a set difference: `get_missing_tests` is
exactly the filter of the expected nested source-then-target enumeration by
absence of the combination's `{combo}_{api}_result.jpg` file — every
combination with an existing result file is excluded, every one without is
included, and the surviving pairs keep the nested iteration order. -/
theorem get_missing_tests_is_set_difference (sources targets fs : List String) :
    get_missing_tests sources targets fs =
      (expectedTests sources targets).filter (fileAbsent fs) ∧
    ∀ m : MissingTest,
      m ∈ get_missing_tests sources targets fs ↔
        m ∈ expectedTests sources targets ∧
          fs.contains (resultPath m.combo m.api) = false := by
  constructor
  · exact missingOuter_eq_filter fs targets 1 sources
  · intro m
    rw [get_missing_tests, missingOuter_eq_filter, List.mem_filter]
    simp [expectedTests, fileAbsent]

/-! ## Retry loop (`thortful_test_single_face.run_single_face_swap`) -/

/-- Outcome of one `requests.post` attempt: a `requests.exceptions.Timeout`,
any other exception, or a returned response (abstracted to its body). -/
inductive AttemptOutcome where
  | timedOut (msg : String)
  | exn (msg : String)
  | ok (resp : String)
deriving DecidableEq, Repr

/-- The response carried by a successful attempt, if any. -/
def AttemptOutcome.okPart : AttemptOutcome → Option String
  | .ok r => some r
  | .timedOut _ => none
  | .exn _ => none

/-- `last_error` set by a timeout on 0-based attempt `a`:
`f"Timeout on attempt {attempt + 1}: {str(e)}"`. -/
def timeoutMsg (a : Nat) (msg : String) : String :=
  "Timeout on attempt " ++ toString (a + 1) ++ ": " ++ msg

/-- The `last_error` recorded by a failed attempt: the two `except` arms of
the loop differ only in this message (timeouts get the `Timeout on attempt`
prefix, other exceptions record `str(e)` directly). -/
def failMsg (a : Nat) : AttemptOutcome → Option String
  | .timedOut m => some (timeoutMsg a m)
  | .exn m => some m
  | .ok _ => none

/-- Observable state after the retry loop: number of POST attempts issued,
the sleeps executed between attempts, the response obtained (if any), and
the recorded `last_error`. -/
structure RetryState where
  attempts : Nat
  sleeps : List Nat
  response : Option String
  lastError : Option String
deriving DecidableEq, Repr

/-- The `for attempt in range(max_retries)` loop of `run_single_face_swap`:
`a` is the current 0-based attempt index, `remaining` the attempts left,
`le` the `last_error` recorded so far.  A returned response breaks the loop;
a failed attempt records `last_error` via `failMsg` and sleeps 10 seconds
unless it was the final attempt (`attempt < max_retries - 1`). -/
def retry_loop (net : Nat → AttemptOutcome) :
    Nat → Nat → Option String → RetryState
  | _, 0, le => ⟨0, [], none, le⟩
  | a, r + 1, le =>
    match (net a).okPart with
    | some resp => ⟨1, [], some resp, le⟩
    | none =>
      let le' := failMsg a (net a)
      if r = 0 then ⟨1, [], none, le'⟩
      else
        let rest := retry_loop net (a + 1) r le'
        ⟨rest.attempts + 1, 10 :: rest.sleeps, rest.response, rest.lastError⟩

theorem retry_loop_succ_ok (net : Nat → AttemptOutcome) (a r : Nat)
    (le : Option String) (resp : String) (h : (net a).okPart = some resp) :
    retry_loop net a (r + 1) le = ⟨1, [], some resp, le⟩ := by
  simp [retry_loop, h]

theorem retry_loop_succ_fail_last (net : Nat → AttemptOutcome) (a : Nat)
    (le : Option String) (h : (net a).okPart = none) :
    retry_loop net a 1 le = ⟨1, [], none, failMsg a (net a)⟩ := by
  simp [retry_loop, h]

theorem retry_loop_succ_fail (net : Nat → AttemptOutcome) (a r : Nat)
    (le : Option String) (h : (net a).okPart = none) (hr : r ≠ 0) :
    retry_loop net a (r + 1) le =
      ⟨(retry_loop net (a + 1) r (failMsg a (net a))).attempts + 1,
       10 :: (retry_loop net (a + 1) r (failMsg a (net a))).sleeps,
       (retry_loop net (a + 1) r (failMsg a (net a))).response,
       (retry_loop net (a + 1) r (failMsg a (net a))).lastError⟩ := by
  simp [retry_loop, h, hr]

theorem retry_loop_attempts_pos (net : Nat → AttemptOutcome) (a r : Nat)
    (le : Option String) (hr : 1 ≤ r) :
    1 ≤ (retry_loop net a r le).attempts := by
  cases r with
  | zero => omega
  | succ r' =>
    cases hn : (net a).okPart with
    | some resp => rw [retry_loop_succ_ok net a r' le _ hn]
    | none =>
      by_cases h0 : r' = 0
      · subst h0; rw [retry_loop_succ_fail_last net a le hn]
      · rw [retry_loop_succ_fail net a r' le hn h0]
        exact Nat.le_add_left 1 _

theorem retry_loop_attempts_le (net : Nat → AttemptOutcome) :
    ∀ (r a : Nat) (le : Option String),
      (retry_loop net a r le).attempts ≤ r := by
  intro r
  induction r with
  | zero => intro a le; simp [retry_loop]
  | succ r ih =>
    intro a le
    cases hn : (net a).okPart with
    | some resp => rw [retry_loop_succ_ok net a r le _ hn]; dsimp only; omega
    | none =>
      by_cases h0 : r = 0
      · subst h0; rw [retry_loop_succ_fail_last net a le hn]
      · rw [retry_loop_succ_fail net a r le hn h0]
        dsimp only
        have := ih (a + 1) (failMsg a (net a))
        omega

theorem retry_loop_sleeps (net : Nat → AttemptOutcome) :
    ∀ (r a : Nat) (le : Option String),
      (retry_loop net a r le).sleeps =
        List.replicate ((retry_loop net a r le).attempts - 1) 10 := by
  intro r
  induction r with
  | zero => intro a le; simp [retry_loop]
  | succ r ih =>
    intro a le
    cases hn : (net a).okPart with
    | some resp => rw [retry_loop_succ_ok net a r le _ hn]; simp
    | none =>
      by_cases h0 : r = 0
      · subst h0; rw [retry_loop_succ_fail_last net a le hn]; simp
      · rw [retry_loop_succ_fail net a r le hn h0]
        dsimp only
        have hpos := retry_loop_attempts_pos net (a + 1) r (failMsg a (net a))
          (Nat.one_le_iff_ne_zero.mpr h0)
        obtain ⟨k, hk⟩ := Nat.exists_eq_add_of_le hpos
        rw [ih (a + 1) (failMsg a (net a)), hk]
        rw [show 1 + k + 1 - 1 = k + 1 by omega, show 1 + k - 1 = k by omega]
        simp [List.replicate_succ]

theorem retry_loop_stops_on_first_ok (net : Nat → AttemptOutcome) :
    ∀ (r a : Nat) (le : Option String),
      (∀ k, k + 1 < (retry_loop net a r le).attempts →
        (net (a + k)).okPart = none) ∧
      (∀ resp, (retry_loop net a r le).response = some resp →
        (net (a + ((retry_loop net a r le).attempts - 1))).okPart = some resp) ∧
      ((retry_loop net a r le).response = none →
        (retry_loop net a r le).attempts = r ∧
          ∀ k < r, (net (a + k)).okPart = none) := by
  intro r
  induction r with
  | zero =>
    intro a le
    refine ⟨?_, ?_, ?_⟩ <;> simp [retry_loop]
  | succ r ih =>
    intro a le
    cases hn : (net a).okPart with
    | some resp =>
      rw [retry_loop_succ_ok net a r le _ hn]
      dsimp only
      refine ⟨?_, ?_, ?_⟩
      · intro k hk; omega
      · intro resp' h
        simp only [Option.some.injEq] at h
        subst h
        simpa using hn
      · intro h; simp at h
    | none =>
      by_cases h0 : r = 0
      · subst h0
        rw [retry_loop_succ_fail_last net a le hn]
        dsimp only
        refine ⟨?_, ?_, ?_⟩
        · intro k hk; omega
        · intro resp h; simp at h
        · intro _
          refine ⟨rfl, ?_⟩
          intro k hk
          interval_cases k
          simpa using hn
      · rw [retry_loop_succ_fail net a r le hn h0]
        dsimp only
        obtain ⟨ih1, ih2, ih3⟩ := ih (a + 1) (failMsg a (net a))
        have hpos := retry_loop_attempts_pos net (a + 1) r (failMsg a (net a))
          (Nat.one_le_iff_ne_zero.mpr h0)
        refine ⟨?_, ?_, ?_⟩
        · intro k hk
          cases k with
          | zero => simpa using hn
          | succ k' =>
            have hlt : k' + 1 < (retry_loop net (a + 1) r (failMsg a (net a))).attempts := by
              omega
            have := ih1 k' hlt
            rwa [show a + (k' + 1) = a + 1 + k' by omega]
        · intro resp hresp
          have := ih2 resp hresp
          rw [show (retry_loop net (a + 1) r (failMsg a (net a))).attempts + 1 - 1
              = (retry_loop net (a + 1) r (failMsg a (net a))).attempts by omega]
          rwa [show a + (retry_loop net (a + 1) r (failMsg a (net a))).attempts
              = a + 1 + ((retry_loop net (a + 1) r (failMsg a (net a))).attempts - 1) by omega]
        · intro hnone
          obtain ⟨hat, hall⟩ := ih3 hnone
          refine ⟨by omega, ?_⟩
          intro k hk
          cases k with
          | zero => simpa using hn
          | succ k' =>
            have := hall k' (by omega)
            rwa [show a + (k' + 1) = a + 1 + k' by omega]

theorem retry_loop_indep (net net' : Nat → AttemptOutcome)
    (hsame : ∀ k, (net k).okPart = (net' k).okPart) :
    ∀ (r a : Nat) (le le' : Option String),
      (retry_loop net a r le).attempts = (retry_loop net' a r le').attempts ∧
      (retry_loop net a r le).sleeps = (retry_loop net' a r le').sleeps ∧
      (retry_loop net a r le).response = (retry_loop net' a r le').response := by
  intro r
  induction r with
  | zero => intro a le le'; simp [retry_loop]
  | succ r ih =>
    intro a le le'
    have hk := hsame a
    cases hn : (net a).okPart with
    | some resp =>
      rw [retry_loop_succ_ok net a r le _ hn,
        retry_loop_succ_ok net' a r le' _ (hk ▸ hn)]
      exact ⟨rfl, rfl, rfl⟩
    | none =>
      by_cases h0 : r = 0
      · subst h0
        rw [retry_loop_succ_fail_last net a le hn,
          retry_loop_succ_fail_last net' a le' (hk ▸ hn)]
        exact ⟨rfl, rfl, rfl⟩
      · rw [retry_loop_succ_fail net a r le hn h0,
          retry_loop_succ_fail net' a r le' (hk ▸ hn) h0]
        obtain ⟨h1, h2, h3⟩ := ih (a + 1) (failMsg a (net a)) (failMsg a (net' a))
        exact ⟨by simp [h1], by simp [h2], h3⟩

/-- Python `str` applied to the `last_error` variable (`str(None) = "None"`). -/
def renderLastError : Option String → String
  | none => "None"
  | some s => s

/-- The failure dictionary returned when every attempt raised. -/
structure SwapFailDict where
  success : Bool
  result_image : String
  generation_time : String
  error_message : String
deriving DecidableEq, Repr

/-- `run_single_face_swap` restricted to its retry phase: runs the loop from
attempt 0 with `last_error = None`; when no attempt returned a response it
produces the all-retries-failed dictionary
(`f"Failed after {max_retries} attempts: {last_error}"`). -/
def run_single_face_swap (net : Nat → AttemptOutcome) (max_retries : Nat) :
    RetryState × Option SwapFailDict :=
  let st := retry_loop net 0 max_retries none
  (st,
    match st.response with
    | none => some ⟨false, "timeout_error", "timeout_error",
        "Failed after " ++ toString max_retries ++ " attempts: " ++
          renderLastError st.lastError⟩
    | some _ => none)

/-- **C2.** Fixed retry with constant backoff: at most `max_retries` POST
attempts, a constant 10-second sleep after every failed attempt except the
last, retrying stops at the first attempt that returns a response, an
all-attempts-raised run returns a `success = False` dictionary whose error
message records that all `max_retries` attempts failed, and two attempt
oracles that fail at the same positions produce identical attempt counts,
sleeps and response (only the recorded message can differ). -/
theorem run_single_face_swap_retry_spec (net net' : Nat → AttemptOutcome)
    (max_retries : Nat) :
    (run_single_face_swap net max_retries).1.attempts ≤ max_retries ∧
    (run_single_face_swap net max_retries).1.sleeps =
      List.replicate ((run_single_face_swap net max_retries).1.attempts - 1) 10 ∧
    (∀ k, k + 1 < (run_single_face_swap net max_retries).1.attempts →
      (net k).okPart = none) ∧
    (∀ resp, (run_single_face_swap net max_retries).1.response = some resp →
      (net ((run_single_face_swap net max_retries).1.attempts - 1)).okPart = some resp ∧
      (run_single_face_swap net max_retries).2 = none) ∧
    ((∀ k < max_retries, (net k).okPart = none) →
      (run_single_face_swap net max_retries).1.response = none ∧
      (run_single_face_swap net max_retries).1.attempts = max_retries ∧
      (run_single_face_swap net max_retries).2 = some ⟨false, "timeout_error",
        "timeout_error",
        "Failed after " ++ toString max_retries ++ " attempts: " ++
          renderLastError (run_single_face_swap net max_retries).1.lastError⟩) ∧
    ((∀ k, (net k).okPart = (net' k).okPart) →
      (run_single_face_swap net max_retries).1.attempts =
        (run_single_face_swap net' max_retries).1.attempts ∧
      (run_single_face_swap net max_retries).1.sleeps =
        (run_single_face_swap net' max_retries).1.sleeps ∧
      (run_single_face_swap net max_retries).1.response =
        (run_single_face_swap net' max_retries).1.response) := by
  obtain ⟨stop1, stop2, stop3⟩ := retry_loop_stops_on_first_ok net max_retries 0 none
  refine ⟨retry_loop_attempts_le net max_retries 0 none,
    retry_loop_sleeps net max_retries 0 none, ?_, ?_, ?_, ?_⟩
  · intro k hk
    simpa using stop1 k hk
  · intro resp hresp
    have h1 := stop2 resp hresp
    simp only [Nat.zero_add] at h1
    refine ⟨by simpa using h1, ?_⟩
    simp only [run_single_face_swap]
    rw [show (retry_loop net 0 max_retries none).response = some resp from hresp]
  · intro hall
    have hre : (retry_loop net 0 max_retries none).response = none := by
      cases hre : (retry_loop net 0 max_retries none).response with
      | none => rfl
      | some resp =>
        have h1 := stop2 resp hre
        have hle := retry_loop_attempts_le net max_retries 0 none
        have hpos : 1 ≤ (retry_loop net 0 max_retries none).attempts := by
          by_contra hc
          push_neg at hc
          have hz : (retry_loop net 0 max_retries none).attempts = 0 := by omega
          cases hmr : max_retries with
          | zero =>
            rw [hmr] at hre
            simp [retry_loop] at hre
          | succ m' =>
            have := retry_loop_attempts_pos net 0 max_retries none (by omega)
            omega
        have hlt : (retry_loop net 0 max_retries none).attempts - 1 < max_retries := by
          omega
        have := hall _ hlt
        simp only [Nat.zero_add] at h1
        rw [this] at h1
        cases h1
    obtain ⟨hat, _⟩ := stop3 hre
    refine ⟨hre, hat, ?_⟩
    simp only [run_single_face_swap]
    rw [show (retry_loop net 0 max_retries none).response = none from hre]
  · intro hsame
    obtain ⟨h1, h2, h3⟩ := retry_loop_indep net net' hsame max_retries 0 none none
    exact ⟨h1, h2, h3⟩

/-- Witness for C2 at a concrete oracle that raises on every attempt with
`max_retries = 3`. -/
theorem run_single_face_swap_retry_spec_witness :
    (∀ k < 3, ((fun _ => AttemptOutcome.exn "boom") k).okPart = none) ∧
    (run_single_face_swap (fun _ => AttemptOutcome.exn "boom") 3).1.response = none ∧
    (run_single_face_swap (fun _ => AttemptOutcome.exn "boom") 3).1.attempts = 3 ∧
    (run_single_face_swap (fun _ => AttemptOutcome.exn "boom") 3).2 =
      some ⟨false, "timeout_error", "timeout_error",
        "Failed after " ++ toString 3 ++ " attempts: " ++
          renderLastError
            (run_single_face_swap (fun _ => AttemptOutcome.exn "boom") 3).1.lastError⟩ := by
  have h := run_single_face_swap_retry_spec (fun _ => AttemptOutcome.exn "boom")
    (fun _ => AttemptOutcome.exn "boom") 3
  have hall : ∀ k < 3, ((fun _ => AttemptOutcome.exn "boom") k).okPart = none := by
    intro k _; rfl
  exact ⟨hall, (h.2.2.2.2.1 hall).1, (h.2.2.2.2.1 hall).2.1, (h.2.2.2.2.1 hall).2.2⟩

/-! ## HTTP call with broad exception handler
(`batch_test_face_swap.perform_face_swap`) -/

/-- The observable parts of the `requests` response used by
`perform_face_swap`: status code, raw body bytes, and the headers read into
the metadata record (each `headers.get` may be absent). -/
structure SwapResponse where
  status : Nat
  content : String
  genTime : Option String
  remainingCredits : Option String
  requestId : Option String
  imageMetadata : Option String
  contentLength : Option String
deriving DecidableEq, Repr

/-- The environment of one `perform_face_swap` call: the outcome of the
`requests.post` (an exception or a response) and whether each of the two
file writes raises. -/
structure SwapEnv where
  http : Except String SwapResponse
  writeOutOk : Bool
  writeMetaOk : Bool

/-- The JSON metadata record written next to the result image. -/
structure SwapMetadata where
  timestamp : String
  source_image : String
  target_image : String
  output_image : String
  api_version : String
  generation_time : Option String
  remaining_credits : Option String
  request_id : Option String
  image_metadata : Option String
  content_length : Option String
deriving DecidableEq, Repr

/-- A completed filesystem write: the raw response bytes to the output
path, or the metadata JSON to the metadata path. -/
inductive WriteEvent where
  | outFile (path content : String)
  | metaFile (path : String) (meta : SwapMetadata)
deriving DecidableEq, Repr

/-- The metadata dict built by `perform_face_swap` (base names abstracted to
the given names, `datetime.now()` abstracted to `now`). -/
def mkSwapMetadata (now source_name target_name output_name : String)
    (r : SwapResponse) : SwapMetadata :=
  ⟨now, source_name, target_name, output_name, "v2",
    r.genTime, r.remainingCredits, r.requestId, r.imageMetadata, r.contentLength⟩

/-- `response.raise_for_status()` raises exactly for 4xx/5xx codes. -/
def raisesForStatus (status : Nat) : Bool :=
  decide (400 ≤ status) && decide (status < 600)

/-- `perform_face_swap` from `batch_test_face_swap.py`: everything from the
`requests.post` onward sits in one `try`, whose `except` prints and returns
`(False, None)`.  The function returns the pair Python returns, plus the
list of file writes that completed. -/
def perform_face_swap (env : SwapEnv) (now source_name target_name : String)
    (output_path metadata_path : String) :
    (Bool × Option String) × List WriteEvent :=
  match env.http with
  | .error _ => ((false, none), [])
  | .ok r =>
    if raisesForStatus r.status then ((false, none), [])
    else if !env.writeOutOk then ((false, none), [])
    else
      let writes1 := [WriteEvent.outFile output_path r.content]
      if !env.writeMetaOk then ((false, none), writes1)
      else ((true, r.genTime),
        writes1 ++ [WriteEvent.metaFile metadata_path
          (mkSwapMetadata now source_name target_name output_path r)])

/-- No exception is raised during the HTTP call or the file writes. -/
def noSwapExn (env : SwapEnv) : Prop :=
  (∃ r, env.http = .ok r ∧ raisesForStatus r.status = false) ∧
    env.writeOutOk = true ∧ env.writeMetaOk = true

instance (env : SwapEnv) : Decidable (noSwapExn env) := by
  unfold noSwapExn
  rcases env with ⟨http, wo, wm⟩
  cases http with
  | error e =>
    refine .isFalse ?_
    rintro ⟨⟨r, hr, _⟩, _⟩
    cases hr
  | ok r =>
    by_cases h : raisesForStatus r.status = false
    · by_cases hwo : wo = true
      · by_cases hwm : wm = true
        · exact .isTrue ⟨⟨r, rfl, h⟩, hwo, hwm⟩
        · exact .isFalse fun ⟨_, _, hc⟩ => hwm hc
      · exact .isFalse fun ⟨_, hc, _⟩ => hwo hc
    · refine .isFalse ?_
      rintro ⟨⟨r', hr', hs⟩, _⟩
      cases hr'
      exact h hs

/-- **C3.** `perform_face_swap` returns `(True, generation_time)` and
performs both writes (raw bytes to `output_path`, metadata JSON to
`metadata_path`) exactly when no exception is raised during the HTTP call
or the file writes; on any exception it returns `(False, None)` (without
re-raising — the function is total), and the metadata write never happens. -/
theorem perform_face_swap_exception_flag (env : SwapEnv)
    (now source_name target_name output_path metadata_path : String) :
    (∀ r, env.http = .ok r → raisesForStatus r.status = false →
      env.writeOutOk = true → env.writeMetaOk = true →
      perform_face_swap env now source_name target_name output_path metadata_path =
        ((true, r.genTime),
          [WriteEvent.outFile output_path r.content,
           WriteEvent.metaFile metadata_path
             (mkSwapMetadata now source_name target_name output_path r)])) ∧
    (¬ noSwapExn env →
      (perform_face_swap env now source_name target_name output_path
        metadata_path).1 = (false, none) ∧
      ∀ meta, WriteEvent.metaFile metadata_path meta ∉
        (perform_face_swap env now source_name target_name output_path
          metadata_path).2) ∧
    (((perform_face_swap env now source_name target_name output_path
        metadata_path).1.1 = true) ↔ noSwapExn env) := by
  refine ⟨?_, ?_, ?_⟩
  · intro r hr hs hwo hwm
    simp [perform_face_swap, hr, hs, hwo, hwm]
  · intro hno
    rcases env with ⟨http, wo, wm⟩
    cases http with
    | error e => simp [perform_face_swap]
    | ok r =>
      by_cases hs : raisesForStatus r.status = false
      · by_cases hwo : wo = true
        · by_cases hwm : wm = true
          · exact absurd ⟨⟨r, rfl, hs⟩, hwo, hwm⟩ hno
          · have hwm' : wm = false := by
              cases wm
              · rfl
              · exact absurd rfl hwm
            subst hwm'
            simp [perform_face_swap, hs, hwo]
        · have hwo' : wo = false := by
            cases wo
            · rfl
            · exact absurd rfl hwo
          subst hwo'
          simp [perform_face_swap, hs]
      · have hs' : raisesForStatus r.status = true := by
          cases h : raisesForStatus r.status
          · exact absurd h hs
          · rfl
        simp [perform_face_swap, hs']
  · constructor
    · intro htrue
      rcases env with ⟨http, wo, wm⟩
      cases http with
      | error e => simp [perform_face_swap] at htrue
      | ok r =>
        by_cases hs : raisesForStatus r.status = false
        · by_cases hwo : wo = true
          · by_cases hwm : wm = true
            · exact ⟨⟨r, rfl, hs⟩, hwo, hwm⟩
            · have hwm' : wm = false := by
                cases wm
                · rfl
                · exact absurd rfl hwm
              subst hwm'
              simp [perform_face_swap, hs, hwo] at htrue
          · have hwo' : wo = false := by
              cases wo
              · rfl
              · exact absurd rfl hwo
            subst hwo'
            simp [perform_face_swap, hs] at htrue
        · have hs' : raisesForStatus r.status = true := by
            cases h : raisesForStatus r.status
            · exact absurd h hs
            · rfl
          simp [perform_face_swap, hs'] at htrue
    · rintro ⟨⟨r, hr, hs⟩, hwo, hwm⟩
      simp [perform_face_swap, hr, hs, hwo, hwm]

/-- Witness for C3: a 200 response with no exceptions yields success and
both writes; an exception at the HTTP layer yields `(False, None)`. -/
theorem perform_face_swap_exception_flag_witness :
    (perform_face_swap
        ⟨.ok ⟨200, "IMG", some "2.5", some "99", some "rid", none, some "123"⟩,
          true, true⟩ "t0" "s.jpg" "t.jpg" "out.jpg" "out_meta.json" =
      ((true, some "2.5"),
        [WriteEvent.outFile "out.jpg" "IMG",
         WriteEvent.metaFile "out_meta.json"
           (mkSwapMetadata "t0" "s.jpg" "t.jpg" "out.jpg"
             ⟨200, "IMG", some "2.5", some "99", some "rid", none, some "123"⟩)])) ∧
    (perform_face_swap ⟨.error "ConnectionError", true, true⟩
        "t0" "s.jpg" "t.jpg" "out.jpg" "out_meta.json").1 = (false, none) := by
  constructor
  · exact (perform_face_swap_exception_flag
        ⟨.ok ⟨200, "IMG", some "2.5", some "99", some "rid", none, some "123"⟩,
          true, true⟩ "t0" "s.jpg" "t.jpg" "out.jpg" "out_meta.json").1
      ⟨200, "IMG", some "2.5", some "99", some "rid", none, some "123"⟩
      rfl (by decide) rfl rfl
  · exact ((perform_face_swap_exception_flag
        ⟨.error "ConnectionError", true, true⟩
        "t0" "s.jpg" "t.jpg" "out.jpg" "out_meta.json").2.1
      (by intro h; rcases h with ⟨⟨r, hr, _⟩, _⟩; cases hr)).1

/-! ## Python string primitives

Character-level models of the `str` operations used by
`shared/utils/common.py` and `batch_test_face_swap.load_api_key`:
single-character `split`/`join`, `replace('.jpg', …)` (which replaces every
occurrence), substring containment (`in`), `startswith` and `strip`. -/

/-- A Python `str` as its character list. -/
abbrev PyStr := List Char

/-- `s.startswith(pat)` (here: `s` begins with the whole of `pat`). -/
def startsWith : PyStr → PyStr → Bool
  | _, [] => true
  | [], _ :: _ => false
  | c :: s, p :: ps => c == p && startsWith s ps

/-- `pat in s`: `pat` occurs contiguously inside `s`. -/
def seqContains (pat : PyStr) : PyStr → Bool
  | [] => startsWith [] pat
  | s@(_ :: rest) => startsWith s pat || seqContains pat rest

/-- Propositional form of contiguous occurrence. -/
def occursIn (pat s : PyStr) : Prop := ∃ l r, s = l ++ pat ++ r

/-- `s.split('_')`. -/
def pySplitU : PyStr → List PyStr
  | [] => [[]]
  | c :: rest =>
    if c = '_' then [] :: pySplitU rest
    else
      match pySplitU rest with
      | [] => [[c]]
      | p :: ps => (c :: p) :: ps

/-- `'_'.join(parts)`. -/
def pyJoinU : List PyStr → PyStr
  | [] => []
  | [p] => p
  | p :: q :: ps => p ++ '_' :: pyJoinU (q :: ps)

/-- The pattern `'.jpg'`. -/
def jpgPat : PyStr := ['.', 'j', 'p', 'g']

/-- `s.replace('.jpg', repl)`: replace every (left-to-right,
non-overlapping) occurrence of `'.jpg'` by `repl`. -/
def replaceJpg (repl : PyStr) : PyStr → PyStr
  | '.' :: 'j' :: 'p' :: 'g' :: rest => repl ++ replaceJpg repl rest
  | c :: rest => c :: replaceJpg repl rest
  | [] => []

/-- `parts.index(tok)` guarded by `tok in parts`: the first index of `tok`,
if present. -/
def idxOfTok (tok : PyStr) : List PyStr → Option Nat
  | [] => none
  | p :: ps => if p = tok then some 0 else (idxOfTok tok ps).map (· + 1)

/-- Python's whitespace class for `str.strip()`. -/
def pyIsSpace (c : Char) : Bool :=
  c == ' ' || c == '\t' || c == '\n' || c == '\x0d' || c == '\x0b' || c == '\x0c'

/-- `s.strip()`. -/
def pyStrip (s : PyStr) : PyStr :=
  ((s.dropWhile pyIsSpace).reverse.dropWhile pyIsSpace).reverse

/-- `line.split('=', 1)[1]`: everything after the first `'='` (the guarded
call sites guarantee an `'='` is present). -/
def afterFirstEq : PyStr → PyStr
  | [] => []
  | c :: rest => if c = '=' then rest else afterFirstEq rest

theorem startsWith_iff (s pat : PyStr) :
    startsWith s pat = true ↔ ∃ t, s = pat ++ t := by
  induction pat generalizing s with
  | nil => simp [startsWith]
  | cons p ps ih =>
    cases s with
    | nil =>
      simp [startsWith]
    | cons c s' =>
      simp only [startsWith, Bool.and_eq_true, beq_iff_eq, ih]
      constructor
      · rintro ⟨rfl, t, rfl⟩
        exact ⟨t, rfl⟩
      · rintro ⟨t, ht⟩
        simp only [List.cons_append, List.cons.injEq] at ht
        exact ⟨ht.1, t, ht.2⟩

theorem seqContains_iff (pat s : PyStr) :
    seqContains pat s = true ↔ occursIn pat s := by
  induction s with
  | nil =>
    simp only [seqContains, startsWith_iff, occursIn]
    constructor
    · rintro ⟨t, ht⟩
      exact ⟨[], t, ht⟩
    · rintro ⟨l, r, h⟩
      have h' := h.symm
      simp only [List.append_eq_nil] at h'
      exact ⟨[], by simp [h'.1.2]⟩
  | cons c s' ih =>
    simp only [seqContains, Bool.or_eq_true, startsWith_iff, ih, occursIn]
    constructor
    · rintro (⟨t, ht⟩ | ⟨l, r, h⟩)
      · exact ⟨[], t, by simp [ht]⟩
      · exact ⟨c :: l, r, by simp [h]⟩
    · rintro ⟨l, r, h⟩
      cases l with
      | nil =>
        exact Or.inl ⟨r, by simpa using h⟩
      | cons x l' =>
        simp only [List.cons_append, List.cons.injEq] at h
        exact Or.inr ⟨l', r, h.2⟩

theorem seqContains_at (pat l r : PyStr) :
    seqContains pat (l ++ pat ++ r) = true :=
  (seqContains_iff pat _).mpr ⟨l, r, rfl⟩

/-- Splitting a contiguous occurrence across a separator character that the
pattern does not contain: the pattern lies wholly on one side. -/
theorem seqContains_sep (pat xs ys : PyStr) (hsep : '_' ∉ pat) :
    seqContains pat (xs ++ '_' :: ys) =
      (seqContains pat xs || seqContains pat ys) := by
  cases hocc : seqContains pat (xs ++ '_' :: ys) with
  | true =>
    obtain ⟨l, r, h⟩ := (seqContains_iff pat _).mp hocc
    rw [List.append_assoc] at h
    rcases List.append_eq_append_iff.mp h with ⟨a, ha1, ha2⟩ | ⟨c, hc1, hc2⟩
    · cases a with
      | nil =>
        simp only [List.nil_append] at ha2
        cases pat with
        | nil =>
          have hx : seqContains ([] : PyStr) xs = true :=
            (seqContains_iff [] xs).mpr ⟨[], xs, rfl⟩
          simp [hx]
        | cons p pat' =>
          simp only [List.cons_append, List.cons.injEq] at ha2
          exact absurd (ha2.1 ▸ List.mem_cons_self p pat') hsep
      | cons a0 a' =>
        simp only [List.cons_append, List.cons.injEq] at ha2
        have hy : seqContains pat ys = true :=
          (seqContains_iff pat ys).mpr ⟨a', r, by rw [ha2.2, List.append_assoc]⟩
        simp [hy]
    · rcases List.append_eq_append_iff.mp hc2 with ⟨a, ha1, ha2⟩ | ⟨d, hd1, hd2⟩
      · -- c = pat ++ a, so pat sits inside xs
        have hx : seqContains pat xs = true :=
          (seqContains_iff pat xs).mpr
            ⟨l, a, by rw [hc1, ha1, List.append_assoc]⟩
        simp [hx]
      · cases d with
        | nil =>
          simp only [List.append_nil] at hd1
          have hx : seqContains pat xs = true :=
            (seqContains_iff pat xs).mpr ⟨l, [], by simp [hc1, hd1]⟩
          simp [hx]
        | cons d0 d' =>
          simp only [List.cons_append, List.cons.injEq] at hd2
          have hmem : '_' ∈ pat := by
            rw [hd1, ← hd2.1]
            exact List.mem_append_right c (List.mem_cons_self '_' d')
          exact absurd hmem hsep
  | false =>
    cases hx : seqContains pat xs with
    | true =>
      obtain ⟨l, r, h⟩ := (seqContains_iff pat xs).mp hx
      have : seqContains pat (xs ++ '_' :: ys) = true :=
        (seqContains_iff pat _).mpr ⟨l, r ++ '_' :: ys, by simp [h]⟩
      rw [this] at hocc
      cases hocc
    | false =>
      cases hy : seqContains pat ys with
      | true =>
        obtain ⟨l, r, h⟩ := (seqContains_iff pat ys).mp hy
        have : seqContains pat (xs ++ '_' :: ys) = true :=
          (seqContains_iff pat _).mpr ⟨xs ++ '_' :: l, r, by simp [h]⟩
        rw [this] at hocc
        cases hocc
      | false => simp

theorem pySplitU_ne_nil (s : PyStr) : pySplitU s ≠ [] := by
  cases s with
  | nil => simp [pySplitU]
  | cons c rest =>
    simp only [pySplitU]
    by_cases h : c = '_'
    · simp [h]
    · simp only [if_neg h]
      cases pySplitU rest <;> simp

theorem pySplitU_no_sep (s : PyStr) (h : '_' ∉ s) : pySplitU s = [s] := by
  induction s with
  | nil => simp [pySplitU]
  | cons c rest ih =>
    have hc : c ≠ '_' := fun hc => h (hc ▸ List.mem_cons_self c rest)
    have hr : '_' ∉ rest := fun hr => h (List.mem_cons_of_mem c hr)
    simp [pySplitU, hc, ih hr]

theorem pySplitU_append_sep (xs ys : PyStr) :
    pySplitU (xs ++ '_' :: ys) = pySplitU xs ++ pySplitU ys := by
  induction xs with
  | nil => simp [pySplitU]
  | cons c xs' ih =>
    by_cases hc : c = '_'
    · subst hc
      simp [pySplitU, ih]
    · have hne := pySplitU_ne_nil xs'
      cases hsp : pySplitU xs' with
      | nil => exact absurd hsp hne
      | cons p ps =>
        rw [List.cons_append, pySplitU, if_neg hc, ih, hsp, pySplitU,
          if_neg hc, hsp]
        simp

theorem pyJoinU_split (s : PyStr) : pyJoinU (pySplitU s) = s := by
  induction s with
  | nil => simp [pySplitU, pyJoinU]
  | cons c rest ih =>
    by_cases hc : c = '_'
    · subst hc
      simp only [pySplitU, if_pos rfl]
      have hne := pySplitU_ne_nil rest
      cases hsp : pySplitU rest with
      | nil => exact absurd hsp hne
      | cons p ps =>
        rw [hsp] at ih
        simp [pyJoinU, ih]
    · simp only [pySplitU, if_neg hc]
      have hne := pySplitU_ne_nil rest
      cases hsp : pySplitU rest with
      | nil => exact absurd hsp hne
      | cons p ps =>
        rw [hsp] at ih
        cases ps with
        | nil => simpa [pyJoinU] using ih
        | cons q ps' =>
          simp only [pyJoinU] at ih ⊢
          simp [ih]

theorem pyJoinU_append (l1 l2 : List PyStr) (h1 : l1 ≠ []) (h2 : l2 ≠ []) :
    pyJoinU (l1 ++ l2) = pyJoinU l1 ++ '_' :: pyJoinU l2 := by
  induction l1 with
  | nil => exact absurd rfl h1
  | cons p l1' ih =>
    cases l1' with
    | nil =>
      cases l2 with
      | nil => exact absurd rfl h2
      | cons q l2' => simp [pyJoinU]
    | cons q l1'' =>
      have hih := ih (by simp)
      simp only [List.cons_append] at hih ⊢
      simp only [pyJoinU]
      rw [hih]
      simp

theorem startsWith_append_jpgPat (base : PyStr)
    (h : startsWith (base ++ jpgPat) jpgPat = true) :
    base = [] ∨ startsWith base jpgPat = true := by
  match base with
  | [] => exact Or.inl rfl
  | [a] =>
    simp [startsWith, jpgPat] at h
  | [a, b] =>
    simp [startsWith, jpgPat] at h
  | [a, b, c] =>
    simp [startsWith, jpgPat] at h
  | a :: b :: c :: d :: rest =>
    refine Or.inr ?_
    simp only [List.cons_append, startsWith, jpgPat] at h ⊢
    simpa using h

theorem replaceJpg_cons_ne (repl : PyStr) (c : Char) (rest : PyStr)
    (h : startsWith (c :: rest) jpgPat = false) :
    replaceJpg repl (c :: rest) = c :: replaceJpg repl rest := by
  rw [replaceJpg.eq_def]
  split
  · next rest' heq =>
    rw [heq] at h
    simp [startsWith, jpgPat] at h
  · next c' rest' hne hceq =>
    cases hceq
    rfl
  · next hceq => cases hceq

theorem replaceJpg_append (repl base : PyStr)
    (h : seqContains jpgPat base = false) :
    replaceJpg repl (base ++ jpgPat) = base ++ repl := by
  induction base with
  | nil =>
    show replaceJpg repl ('.' :: 'j' :: 'p' :: 'g' :: []) = repl
    rw [show replaceJpg repl ('.' :: 'j' :: 'p' :: 'g' :: []) =
      repl ++ replaceJpg repl [] from rfl]
    simp [replaceJpg]
  | cons c rest ih =>
    have hfalse : seqContains jpgPat (c :: rest) = false := h
    simp only [seqContains, Bool.or_eq_false_iff] at hfalse
    obtain ⟨hsw, hrest⟩ := hfalse
    have hnost : startsWith (c :: (rest ++ jpgPat)) jpgPat = false := by
      cases hst : startsWith (c :: (rest ++ jpgPat)) jpgPat with
      | false => rfl
      | true =>
        have hst' : startsWith ((c :: rest) ++ jpgPat) jpgPat = true := by
          simpa using hst
        rcases startsWith_append_jpgPat (c :: rest) hst' with h0 | h1
        · cases h0
        · rw [h1] at hsw; cases hsw
    rw [List.cons_append, replaceJpg_cons_ne repl c (rest ++ jpgPat) hnost,
      ih hrest]
    simp

theorem idxOfTok_append (tok : PyStr) (l1 l2 : List PyStr)
    (h : ∀ p ∈ l1, p ≠ tok) :
    idxOfTok tok (l1 ++ tok :: l2) = some l1.length := by
  induction l1 with
  | nil => simp [idxOfTok]
  | cons p l1' ih =>
    have hp : p ≠ tok := h p (List.mem_cons_self p l1')
    have hrest : ∀ q ∈ l1', q ≠ tok := fun q hq => h q (List.mem_cons_of_mem p hq)
    simp [idxOfTok, hp, ih hrest]

/-! ## Filename parsing (`shared/utils/common.parse_result_filename`) -/

/-- The token `'to'`. -/
def toTok : PyStr := ['t', 'o']

/-- The substring `'v2'`. -/
def v2Tok : PyStr := ['v', '2']

/-- The substring `'v4'`. -/
def v4Tok : PyStr := ['v', '4']

/-- The substring `'v43'`. -/
def v43Tok : PyStr := ['v', '4', '3']

/-- The token `'result'`. -/
def resultTok : PyStr := ['r', 'e', 's', 'u', 'l', 't']

/-- The suffix `'_result.jpg'` without its leading underscore. -/
def resultJpg : PyStr := resultTok ++ jpgPat

/-- The dictionary built by `parse_result_filename`; each key may be
absent. -/
structure ParsedName where
  source : Option PyStr
  target : Option PyStr
  api_version : Option PyStr
deriving DecidableEq, Repr

/-- `parse_result_filename` from `shared/utils/common.py`: strip `'.jpg'`
(every occurrence), split on `'_'`, cut at the first standalone `'to'`
part, and classify the API version by substring checks on the original
filename (`'v2'`, then `'v4'`, then `'v43'`). -/
def parse_result_filename (filename : PyStr) : ParsedName :=
  let parts := pySplitU (replaceJpg [] filename)
  let st : Option PyStr × Option PyStr :=
    match idxOfTok toTok parts with
    | some i =>
      (some (pyJoinU (parts.take i)), some (pyJoinU (parts.drop (i + 1))))
    | none => (none, none)
  let api : Option PyStr :=
    if seqContains v2Tok filename then some v2Tok
    else if seqContains v4Tok filename then some v4Tok
    else if seqContains v43Tok filename then some v43Tok
    else none
  ⟨st.1, st.2, api⟩

theorem seqContains_v43_imp_v4 (s : PyStr)
    (h : seqContains v43Tok s = true) : seqContains v4Tok s = true := by
  obtain ⟨l, r, hlr⟩ := (seqContains_iff v43Tok s).mp h
  refine (seqContains_iff v4Tok s).mpr ⟨l, '3' :: r, ?_⟩
  rw [hlr]
  simp [v43Tok, v4Tok]

/-- **C8.** The `'v43'` branch of `parse_result_filename` is unreachable:
no filename is ever classified as `'v43'`, because a filename containing
`'v43'` also contains `'v4'` and the `'v4'` check comes first; a v4.3
filename without `'v2'` is classified `'v4'`. -/
theorem parse_result_filename_v43_unreachable (filename : PyStr) :
    (parse_result_filename filename).api_version ≠ some v43Tok ∧
    (seqContains v43Tok filename = true → seqContains v2Tok filename = false →
      (parse_result_filename filename).api_version = some v4Tok) := by
  by_cases h2 : seqContains v2Tok filename = true
  · constructor
    · simp only [parse_result_filename]
      rw [if_pos h2]
      simp [v2Tok, v43Tok]
    · intro _ hfalse
      rw [h2] at hfalse
      cases hfalse
  · have h2f : seqContains v2Tok filename = false := by
      cases hv : seqContains v2Tok filename
      · rfl
      · exact absurd hv h2
    by_cases h4 : seqContains v4Tok filename = true
    · constructor
      · simp only [parse_result_filename]
        rw [if_neg h2, if_pos h4]
        simp [v4Tok, v43Tok]
      · intro _ _
        simp only [parse_result_filename]
        rw [if_neg h2, if_pos h4]
    · have h4f : seqContains v4Tok filename = false := by
        cases hv : seqContains v4Tok filename
        · rfl
        · exact absurd hv h4
      have h43f : seqContains v43Tok filename = false := by
        cases hv : seqContains v43Tok filename
        · rfl
        · rw [seqContains_v43_imp_v4 filename hv] at h4f
          cases h4f
      constructor
      · simp [parse_result_filename, h2f, h4f, h43f]
      · intro hv43 _
        rw [hv43] at h43f
        cases h43f

/-- Witness for C8 on the concrete filename `a_to_b_v43_result.jpg`. -/
theorem parse_result_filename_v43_unreachable_witness :
    seqContains v43Tok ("a_to_b_v43_result.jpg".toList) = true ∧
    seqContains v2Tok ("a_to_b_v43_result.jpg".toList) = false ∧
    (parse_result_filename ("a_to_b_v43_result.jpg".toList)).api_version ≠
      some v43Tok ∧
    (parse_result_filename ("a_to_b_v43_result.jpg".toList)).api_version =
      some v4Tok := by
  have h := parse_result_filename_v43_unreachable ("a_to_b_v43_result.jpg".toList)
  exact ⟨by decide, by decide, h.1, h.2 (by decide) (by decide)⟩

/-- The result filename `f"{source}_to_{target}_{api}_result.jpg"` as
assembled by the batch scripts (`run_single_test` and friends). -/
def mkResultName (source target api : PyStr) : PyStr :=
  source ++ '_' :: toTok ++ '_' :: target ++ '_' :: api ++ '_' :: resultJpg

/-- The same name with the trailing `'.jpg'` removed. -/
def resultBase (source target api : PyStr) : PyStr :=
  source ++ '_' :: toTok ++ '_' :: target ++ '_' :: api ++ '_' :: resultTok

theorem mkResultName_eq (source target api : PyStr) :
    mkResultName source target api = resultBase source target api ++ jpgPat := by
  simp [mkResultName, resultBase, resultJpg, List.append_assoc]

theorem seqContains_mkResultName (pat source target api : PyStr)
    (hsep : '_' ∉ pat) :
    seqContains pat (mkResultName source target api) =
      (seqContains pat source || (seqContains pat toTok ||
        (seqContains pat target || (seqContains pat api ||
          seqContains pat resultJpg)))) := by
  unfold mkResultName
  simp only [List.cons_append, List.append_assoc]
  rw [seqContains_sep pat source _ hsep, seqContains_sep pat toTok _ hsep,
    seqContains_sep pat target _ hsep, seqContains_sep pat api _ hsep]

theorem seqContains_resultBase (pat source target api : PyStr)
    (hsep : '_' ∉ pat) :
    seqContains pat (resultBase source target api) =
      (seqContains pat source || (seqContains pat toTok ||
        (seqContains pat target || (seqContains pat api ||
          seqContains pat resultTok)))) := by
  unfold resultBase
  simp only [List.cons_append, List.append_assoc]
  rw [seqContains_sep pat source _ hsep, seqContains_sep pat toTok _ hsep,
    seqContains_sep pat target _ hsep, seqContains_sep pat api _ hsep]

theorem take_len_append {α : Type} (l1 l2 : List α) :
    (l1 ++ l2).take l1.length = l1 := by
  induction l1 with
  | nil => simp
  | cons x l1' ih => simp [ih]

theorem drop_len_append {α : Type} (l1 l2 : List α) :
    (l1 ++ l2).drop l1.length = l2 := by
  induction l1 with
  | nil => simp
  | cons x l1' ih => simp [ih]

/-- Counterexample to C4 as stated: with source `a`, target `b` and API tag
`v43` (both names free of a standalone `to` and of `v2`/`v4`/`v43`), the
parsed target is `b_v43_result`, not `b`, and the parsed api_version is
`v4`, not `v43`; moreover a source containing `.jpg` is not recovered. -/
theorem parse_result_filename_roundtrip_cex :
    (parse_result_filename (mkResultName ("a".toList) ("b".toList) v43Tok)).source
      = some ("a".toList) ∧
    (parse_result_filename (mkResultName ("a".toList) ("b".toList) v43Tok)).target
      ≠ some ("b".toList) ∧
    (parse_result_filename (mkResultName ("a".toList) ("b".toList) v43Tok)).target
      = some ("b_v43_result".toList) ∧
    (parse_result_filename (mkResultName ("a".toList) ("b".toList) v43Tok)).api_version
      ≠ some v43Tok ∧
    (parse_result_filename (mkResultName ("x.jpg".toList) ("b".toList) v2Tok)).source
      ≠ some ("x.jpg".toList) := by
  refine ⟨?_, ?_, ?_, ?_, ?_⟩ <;> decide

/-- **C4 (amended).** Filename round-trip under the naming convention: for
source and target names free of a standalone `to` token, of the substrings
`v2`/`v4`/`v43`, and of the substring `.jpg`, and an API tag that is `v2`
or `v4`, parsing `f"{source}_to_{target}_{api}_result.jpg"` recovers
`source` exactly, recovers as target the string
`f"{target}_{api}_result"` (the parser keeps everything after the first
`to` part), and recovers the API tag. -/
theorem parse_result_filename_roundtrip_amended
    (source target api : PyStr)
    (hsTo : toTok ∉ pySplitU source) (htTo : toTok ∉ pySplitU target)
    (hs2 : seqContains v2Tok source = false)
    (hs4 : seqContains v4Tok source = false)
    (hs43 : seqContains v43Tok source = false)
    (ht2 : seqContains v2Tok target = false)
    (ht4 : seqContains v4Tok target = false)
    (ht43 : seqContains v43Tok target = false)
    (hsJ : seqContains jpgPat source = false)
    (htJ : seqContains jpgPat target = false)
    (hapi : api = v2Tok ∨ api = v4Tok) :
    (parse_result_filename (mkResultName source target api)).source
      = some source ∧
    (parse_result_filename (mkResultName source target api)).target
      = some (target ++ '_' :: api ++ '_' :: resultTok) ∧
    (parse_result_filename (mkResultName source target api)).api_version
      = some api := by
  have hsepJ : '_' ∉ jpgPat := by decide
  have hjpgApi : seqContains jpgPat api = false := by
    rcases hapi with rfl | rfl <;> decide
  have hapiNoSep : '_' ∉ api := by
    rcases hapi with rfl | rfl <;> decide
  have hbase : seqContains jpgPat (resultBase source target api) = false := by
    rw [seqContains_resultBase jpgPat source target api hsepJ, hsJ, htJ, hjpgApi]
    decide
  have hstrip : replaceJpg [] (mkResultName source target api) =
      resultBase source target api := by
    rw [mkResultName_eq, replaceJpg_append [] _ hbase]
    simp
  have hsplit : pySplitU (resultBase source target api) =
      pySplitU source ++ toTok :: (pySplitU target ++ [api, resultTok]) := by
    unfold resultBase
    simp only [List.cons_append, List.append_assoc]
    rw [pySplitU_append_sep source, pySplitU_append_sep toTok,
      pySplitU_append_sep target, pySplitU_append_sep api,
      pySplitU_no_sep toTok (by decide), pySplitU_no_sep resultTok (by decide),
      pySplitU_no_sep api hapiNoSep]
    simp
  have hnosrc : ∀ p ∈ pySplitU source, p ≠ toTok :=
    fun p hp heq => hsTo (heq ▸ hp)
  have hidx : idxOfTok toTok
      (pySplitU source ++ toTok :: (pySplitU target ++ [api, resultTok])) =
      some (pySplitU source).length :=
    idxOfTok_append toTok _ _ hnosrc
  refine ⟨?_, ?_, ?_⟩
  · simp only [parse_result_filename, hstrip, hsplit, hidx]
    rw [take_len_append, pyJoinU_split]
  · simp only [parse_result_filename, hstrip, hsplit, hidx]
    rw [show pySplitU source ++ toTok :: (pySplitU target ++ [api, resultTok]) =
        (pySplitU source ++ [toTok]) ++ (pySplitU target ++ [api, resultTok])
        by simp,
      show (pySplitU source).length + 1 =
        (pySplitU source ++ [toTok]).length by simp,
      drop_len_append,
      pyJoinU_append _ _ (pySplitU_ne_nil target) (by simp),
      pyJoinU_split]
    simp [pyJoinU]
  · simp only [parse_result_filename]
    rcases hapi with rfl | rfl
    · rw [if_pos ?hv2]
      case hv2 =>
        rw [seqContains_mkResultName v2Tok source target v2Tok (by decide),
          hs2, ht2]
        decide
    · rw [if_neg ?hv2f, if_pos ?hv4]
      case hv2f =>
        rw [seqContains_mkResultName v2Tok source target v4Tok (by decide),
          hs2, ht2]
        decide
      case hv4 =>
        rw [seqContains_mkResultName v4Tok source target v4Tok (by decide),
          hs4, ht4]
        decide

/-- Witness for the amended C4 at source `a`, target `b`, API tag `v2`. -/
theorem parse_result_filename_roundtrip_amended_witness :
    (parse_result_filename (mkResultName ("a".toList) ("b".toList) v2Tok)).source
        = some ("a".toList) ∧
    (parse_result_filename (mkResultName ("a".toList) ("b".toList) v2Tok)).target
        = some (("b".toList) ++ '_' :: v2Tok ++ '_' :: resultTok) ∧
    (parse_result_filename (mkResultName ("a".toList) ("b".toList) v2Tok)).api_version
        = some v2Tok :=
  parse_result_filename_roundtrip_amended ("a".toList) ("b".toList) v2Tok
    (by decide) (by decide) (by decide) (by decide) (by decide) (by decide)
    (by decide) (by decide) (by decide) (by decide) (Or.inl rfl)

/-! ## Metadata sidecar (`shared/utils/common.save_result_metadata` and
`load_result_metadata`) -/

/-- The replacement string `'_metadata.json'`. -/
def metaSuffix : PyStr := "_metadata.json".toList

/-- A flat metadata record, standing in for any dictionary that JSON
serialization preserves. -/
abbrev MetaDict := List (String × String)

/-- The filesystem restricted to metadata files: path to stored record. -/
abbrev MetaFS := PyStr → Option MetaDict

/-- `result_path.replace('.jpg', '_metadata.json')` as computed by both
`save_result_metadata` and `load_result_metadata`. -/
def metadata_path_of (result_path : PyStr) : PyStr :=
  replaceJpg metaSuffix result_path

/-- `save_result_metadata`: write the record at the sibling path. -/
def save_result_metadata (fs : MetaFS) (result_path : PyStr)
    (m : MetaDict) : MetaFS :=
  fun p => if p = metadata_path_of result_path then some m else fs p

/-- `load_result_metadata`: read the record at the sibling path, `None`
when that file does not exist. -/
def load_result_metadata (fs : MetaFS) (result_path : PyStr) :
    Option MetaDict :=
  fs (metadata_path_of result_path)

/-- **C9.** Metadata save/load round-trip: for a result path `stem ++ '.jpg'`
whose stem is free of `.jpg`, both functions derive the sibling path
`stem ++ '_metadata.json'`, loading after saving returns exactly the saved
record, and loading returns `None` whenever the sibling file is absent. -/
theorem save_load_metadata_roundtrip (fs : MetaFS) (stem : PyStr)
    (m : MetaDict) (h : seqContains jpgPat stem = false) :
    metadata_path_of (stem ++ jpgPat) = stem ++ metaSuffix ∧
    load_result_metadata (save_result_metadata fs (stem ++ jpgPat) m)
      (stem ++ jpgPat) = some m ∧
    (∀ p : PyStr, fs (metadata_path_of p) = none →
      load_result_metadata fs p = none) := by
  refine ⟨replaceJpg_append metaSuffix stem h, ?_, fun p hp => hp⟩
  simp [load_result_metadata, save_result_metadata]

/-- Witness for C9 at the concrete result path `r.jpg`. -/
theorem save_load_metadata_roundtrip_witness :
    metadata_path_of (("r".toList) ++ jpgPat) = ("r".toList) ++ metaSuffix ∧
    load_result_metadata
      (save_result_metadata (fun _ => none) (("r".toList) ++ jpgPat)
        [("success", "true")])
      (("r".toList) ++ jpgPat) = some [("success", "true")] :=
  ⟨(save_load_metadata_roundtrip (fun _ => none) ("r".toList)
      [("success", "true")] (by decide)).1,
   (save_load_metadata_roundtrip (fun _ => none) ("r".toList)
      [("success", "true")] (by decide)).2.1⟩

/-! ## API-key loading (`batch_test_face_swap.load_api_key`) -/

/-- The line prefix `'REACT_APP_SEGMIND_API_KEY='`. -/
def keyPrefix : PyStr := "REACT_APP_SEGMIND_API_KEY=".toList

/-- The `for line in f` loop of `load_api_key`: return on the first
stripped line that starts with the key prefix, the stripped text after the
first `'='`. -/
def scanLines : List PyStr → Option PyStr
  | [] => none
  | l :: ls =>
    if startsWith (pyStrip l) keyPrefix then
      some (pyStrip (afterFirstEq (pyStrip l)))
    else scanLines ls

/-- `load_api_key` from `batch_test_face_swap.py`: the environment variable
wins when set and non-empty (Python truthiness), otherwise the `.env` file
is scanned when it exists, otherwise `None`. -/
def load_api_key (env : Option PyStr) (envFileExists : Bool)
    (lines : List PyStr) : Option PyStr :=
  match env with
  | some k =>
    if k ≠ [] then some k
    else if envFileExists then scanLines lines else none
  | none => if envFileExists then scanLines lines else none

theorem scanLines_first (l1 : List PyStr) (l : PyStr) (l2 : List PyStr)
    (hnone : ∀ l' ∈ l1, startsWith (pyStrip l') keyPrefix = false)
    (hmatch : startsWith (pyStrip l) keyPrefix = true) :
    scanLines (l1 ++ l :: l2) = some (pyStrip (afterFirstEq (pyStrip l))) := by
  induction l1 with
  | nil => simp [scanLines, hmatch]
  | cons x l1' ih =>
    have hx := hnone x (List.mem_cons_self x l1')
    simp [scanLines, hx,
      ih (fun l' hl' => hnone l' (List.mem_cons_of_mem x hl'))]

theorem scanLines_none (lines : List PyStr)
    (h : ∀ l ∈ lines, startsWith (pyStrip l) keyPrefix = false) :
    scanLines lines = none := by
  induction lines with
  | nil => rfl
  | cons x ls ih =>
    simp [scanLines, h x (List.mem_cons_self x ls),
      ih (fun l hl => h l (List.mem_cons_of_mem x hl))]

/-- **C5.** API-key loading precedence: a set, non-empty environment
variable is returned as is; otherwise, when the `.env` file exists, the
stripped text after the first `'='` of the first stripped line starting
with `'REACT_APP_SEGMIND_API_KEY='` is returned (and `None` when no line
matches); otherwise `None`.  No branch inspects the key further. -/
theorem load_api_key_precedence (env : Option PyStr) (envFileExists : Bool)
    (lines : List PyStr) :
    (∀ k, env = some k → k ≠ [] →
      load_api_key env envFileExists lines = some k) ∧
    ((env = none ∨ env = some []) → envFileExists = true →
      ((∀ l1 l l2, lines = l1 ++ l :: l2 →
          (∀ l' ∈ l1, startsWith (pyStrip l') keyPrefix = false) →
          startsWith (pyStrip l) keyPrefix = true →
          load_api_key env envFileExists lines =
            some (pyStrip (afterFirstEq (pyStrip l)))) ∧
        ((∀ l ∈ lines, startsWith (pyStrip l) keyPrefix = false) →
          load_api_key env envFileExists lines = none))) ∧
    ((env = none ∨ env = some []) → envFileExists = false →
      load_api_key env envFileExists lines = none) := by
  refine ⟨?_, ?_, ?_⟩
  · rintro k rfl hk
    simp [load_api_key, hk]
  · intro henv hex
    subst hex
    have hred : load_api_key env true lines = scanLines lines := by
      rcases henv with rfl | rfl <;> simp [load_api_key]
    constructor
    · intro l1 l l2 hl hnone hm
      rw [hred, hl]
      exact scanLines_first l1 l l2 hnone hm
    · intro hall
      rw [hred]
      exact scanLines_none lines hall
  · intro henv hex
    subst hex
    rcases henv with rfl | rfl <;> simp [load_api_key]

/-- Witness for C5: environment variable wins; a matching second `.env`
line is found and stripped; a missing file yields `None`. -/
theorem load_api_key_precedence_witness :
    load_api_key (some ("envkey".toList)) true [] = some ("envkey".toList) ∧
    load_api_key none true
      ["# comment".toList, "  REACT_APP_SEGMIND_API_KEY= secret ".toList] =
      some (pyStrip (afterFirstEq
        (pyStrip ("  REACT_APP_SEGMIND_API_KEY= secret ".toList)))) ∧
    load_api_key none false ["REACT_APP_SEGMIND_API_KEY=x".toList] = none := by
  have h1 := load_api_key_precedence (some ("envkey".toList)) true []
  have h2 := load_api_key_precedence none true
    ["# comment".toList, "  REACT_APP_SEGMIND_API_KEY= secret ".toList]
  have h3 := load_api_key_precedence none false
    ["REACT_APP_SEGMIND_API_KEY=x".toList]
  refine ⟨h1.1 _ rfl (by decide), ?_, h3.2.2 (Or.inl rfl) rfl⟩
  exact (h2.2.1 (Or.inl rfl) rfl).1 ["# comment".toList] _ []
    rfl (by decide) (by decide)

/-! ## CSV request logs (`continue_v4_with_logging.py` and
`continue_multiface_v43_with_logging.py`) -/

/-- A CSV file as its list of rows (each row a list of fields); `none`
models a file that does not exist yet. -/
abbrev CsvFile := Option (List (List String))

/-- The 32 header columns of `v4_requests_log.csv`. -/
def v4_log_headers : List String :=
  ["timestamp", "request_id", "source_image", "target_image", "combo_key",
   "source_file_size_kb", "target_file_size_kb", "source_base64_size_kb",
   "target_base64_size_kb", "total_payload_size_mb", "request_start_time",
   "request_end_time", "request_duration_seconds", "http_status_code",
   "success", "timeout_occurred", "error_type", "error_message",
   "response_content_length", "response_content_type", "api_generation_time",
   "api_remaining_credits", "api_request_id", "detection_face_order",
   "model_type", "swap_type", "hardware_type", "source_face_index",
   "target_face_index", "output_file_saved", "batch_number",
   "session_start_time"]

/-- The 42 header columns of `multiface_v43_requests_log.csv`. -/
def multiface_log_headers : List String :=
  ["timestamp", "request_id", "source_image", "target_image", "combo_key",
   "api_version", "source_file_size_kb", "target_file_size_kb",
   "source_base64_size_kb", "target_base64_size_kb", "total_payload_size_mb",
   "request_start_time", "request_end_time", "request_duration_seconds",
   "http_status_code", "success", "timeout_occurred", "error_type",
   "error_message", "response_content_length", "response_content_type",
   "api_generation_time", "api_remaining_credits", "api_request_id",
   "detection_face_order", "model_type", "swap_type", "hardware_type",
   "source_faces_index", "target_faces_index", "credits_used",
   "cost_per_request", "previous_credits", "output_file_saved",
   "batch_number", "session_start_time", "test_type", "api_endpoint_url",
   "face_restore", "face_upsample", "codeformer_fidelity",
   "all_request_parameters_json"]

/-- `initialize_csv_log`: write the header row only when the file does not
exist; otherwise leave the file untouched. -/
def initialize_csv_log (file : CsvFile) : CsvFile :=
  match file with
  | none => some [v4_log_headers]
  | some rows => some rows

/-- `initialize_multiface_csv_log`: same, with the 42-column header. -/
def initialize_multiface_csv_log (file : CsvFile) : CsvFile :=
  match file with
  | none => some [multiface_log_headers]
  | some rows => some rows

/-- The row appended by `log_v4_request`: one `log_data.get(key, '')` per
column, in header order (`d` models the dictionary lookup with default). -/
def log_v4_row (d : String → String) : List String :=
  v4_log_headers.map d

/-- The row appended by `log_multiface_request`. -/
def log_multiface_row (d : String → String) : List String :=
  multiface_log_headers.map d

/-- `log_v4_request`: open with mode `'a'` (creating the file if missing)
and append exactly one row. -/
def log_v4_request (file : CsvFile) (d : String → String) :
    List (List String) :=
  file.getD [] ++ [log_v4_row d]

/-- `log_multiface_request`: same, with the 42-field row. -/
def log_multiface_request (file : CsvFile) (d : String → String) :
    List (List String) :=
  file.getD [] ++ [log_multiface_row d]

/-- **C6.** The CSV log is a fixed-width append-only record: the header is
written exactly once — only when the file does not yet exist — with 32
columns for the v4 single-face log and 42 for the v4.3 multiface log; each
logged request appends exactly one row whose field count equals the
header's; and the rows already present are preserved as a prefix by every
log call. -/
theorem csv_log_fixed_width_append_only (rows : List (List String))
    (d : String → String) :
    v4_log_headers.length = 32 ∧
    multiface_log_headers.length = 42 ∧
    initialize_csv_log none = some [v4_log_headers] ∧
    initialize_csv_log (some rows) = some rows ∧
    initialize_multiface_csv_log none = some [multiface_log_headers] ∧
    initialize_multiface_csv_log (some rows) = some rows ∧
    (log_v4_row d).length = v4_log_headers.length ∧
    (log_multiface_row d).length = multiface_log_headers.length ∧
    log_v4_request (some rows) d = rows ++ [log_v4_row d] ∧
    log_multiface_request (some rows) d = rows ++ [log_multiface_row d] := by
  refine ⟨rfl, rfl, rfl, rfl, rfl, rfl, ?_, ?_, rfl, rfl⟩
  · simp [log_v4_row]
  · simp [log_multiface_row]

/-! ## Shared CSV logger (`shared/utils/common.log_test_result`) -/

/-- An ordered dictionary of test data. -/
abbrev TestData := List (String × String)

/-- `test_data.keys()` in order. -/
def csvHeaderOf (d : TestData) : List String := d.map (fun kv => kv.1)

/-- The `DictWriter` row: the values in fieldname order. -/
def csvRowOf (d : TestData) : List String := d.map (fun kv => kv.2)

/-- `log_test_result` from `shared/utils/common.py`: opening with mode
`'a'` creates the file; header and row are written only when `test_data`
is non-empty, and the header only when the file did not exist before the
call. -/
def log_test_result (file : CsvFile) (d : TestData) : CsvFile :=
  let rows := file.getD []
  if d = [] then some rows
  else some (rows ++ (if file = none then [csvHeaderOf d] else []) ++
    [csvRowOf d])

theorem log_test_result_foldl (ds : List TestData) :
    ∀ rows, (∀ d ∈ ds, d ≠ []) →
      ds.foldl log_test_result (some rows) = some (rows ++ ds.map csvRowOf) := by
  induction ds with
  | nil => intro rows _; simp
  | cons d ds' ih =>
    intro rows hall
    have hd : d ≠ [] := hall d (List.mem_cons_self d ds')
    simp only [List.foldl_cons]
    rw [show log_test_result (some rows) d = some (rows ++ [csvRowOf d]) by
      simp [log_test_result, hd]]
    rw [ih _ (fun d' hd' => hall d' (List.mem_cons_of_mem d hd'))]
    simp

/-- **C10.** Empty-record edge case of the shared CSV logger: a first call
with an empty dictionary creates the file but writes neither header nor
row; every later call on the now-existing file with non-empty data appends
exactly one value row and never a header, so a whole run started this way
produces only value rows. -/
theorem log_test_result_empty_first (rows : List (List String))
    (d : TestData) :
    log_test_result none [] = some [] ∧
    (d ≠ [] → log_test_result (some rows) d = some (rows ++ [csvRowOf d])) ∧
    (∀ ds : List TestData, (∀ d' ∈ ds, d' ≠ []) →
      ds.foldl log_test_result (log_test_result none []) =
        some (ds.map csvRowOf)) := by
  refine ⟨rfl, ?_, ?_⟩
  · intro hd
    simp [log_test_result, hd]
  · intro ds hall
    rw [show log_test_result none [] = some [] from rfl,
      log_test_result_foldl ds [] hall]
    simp

/-- Witness for C10: empty first call, then one non-empty call. -/
theorem log_test_result_empty_first_witness :
    log_test_result none [] = some [] ∧
    log_test_result (some []) [("a", "1")] = some [["1"]] ∧
    [[("a", "1")], [("b", "2")]].foldl log_test_result
      (log_test_result none []) = some [["1"], ["2"]] := by
  have h := log_test_result_empty_first [] [("a", "1")]
  refine ⟨h.1, ?_, ?_⟩
  · have h2 := h.2.1 (by decide)
    simpa [csvRowOf] using h2
  · have h3 := h.2.2 [[("a", "1")], [("b", "2")]] (by decide)
    simpa [csvRowOf] using h3

/-! ## Sequential batch loop (`batch_test_face_swap.run_batch_tests`) -/

/-- One observable event of the batch loop: issuing the blocking HTTP
request for combination `(i, j)` (1-based source and target positions),
its completion carrying the success flag `perform_face_swap` returned, or
a `time.sleep` of the given number of seconds. -/
inductive BatchEvent where
  | request (i j : Nat)
  | complete (i j : Nat) (ok : Bool)
  | sleeping (secs : Nat)
deriving DecidableEq, Repr

/-- The inner `for j, target_path in enumerate(target_images, 1)` loop for
source `i`: request, blocking completion, then the fixed
`time.sleep(1)` — also after failures. -/
def batchInner (outcome : Nat → Nat → Bool) (i : Nat) :
    Nat → List String → List BatchEvent
  | _, [] => []
  | j, _ :: rest =>
    BatchEvent.request i j ::
      BatchEvent.complete i j (outcome i j) ::
        BatchEvent.sleeping 1 :: batchInner outcome i (j + 1) rest

/-- The outer `for i, source_path in enumerate(source_images, 1)` loop. -/
def batchOuter (outcome : Nat → Nat → Bool) (targets : List String) :
    Nat → List String → List BatchEvent
  | _, [] => []
  | i, _ :: rest =>
    batchInner outcome i 1 targets ++ batchOuter outcome targets (i + 1) rest

/-- The event trace of `run_batch_tests` over the sorted source and target
lists, with the per-combination success flag abstracted as `outcome`. -/
def run_batch_tests (sources targets : List String)
    (outcome : Nat → Nat → Bool) : List BatchEvent :=
  batchOuter outcome targets 1 sources

theorem getElem_cons3 {α : Type} (a b c : α) (l : List α) (n : Nat) :
    (a :: b :: c :: l)[n + 3]? = l[n]? := by
  rw [show n + 3 = (n + 2) + 1 by ring, List.getElem?_cons_succ,
    show n + 2 = (n + 1) + 1 by ring, List.getElem?_cons_succ,
    List.getElem?_cons_succ]

theorem batchInner_length (outcome : Nat → Nat → Bool) (i : Nat) :
    ∀ (ts : List String) (j : Nat),
      (batchInner outcome i j ts).length = 3 * ts.length := by
  intro ts
  induction ts with
  | nil => intro j; simp [batchInner]
  | cons t ts' ih =>
    intro j
    simp only [batchInner, List.length_cons, ih]
    ring

theorem batchInner_getElem (outcome : Nat → Nat → Bool) (i : Nat) :
    ∀ (ts : List String) (j0 k : Nat), k < ts.length →
      (batchInner outcome i j0 ts)[3 * k]? =
        some (BatchEvent.request i (j0 + k)) ∧
      (batchInner outcome i j0 ts)[3 * k + 1]? =
        some (BatchEvent.complete i (j0 + k) (outcome i (j0 + k))) ∧
      (batchInner outcome i j0 ts)[3 * k + 2]? =
        some (BatchEvent.sleeping 1) := by
  intro ts
  induction ts with
  | nil => intro j0 k hk; simp at hk
  | cons t ts' ih =>
    intro j0 k hk
    cases k with
    | zero => simp [batchInner]
    | succ k' =>
      have hk' : k' < ts'.length := by simpa using hk
      obtain ⟨ih1, ih2, ih3⟩ := ih (j0 + 1) k' hk'
      simp only [batchInner]
      rw [show 3 * (k' + 1) = 3 * k' + 3 by ring]
      refine ⟨?_, ?_, ?_⟩
      · rw [getElem_cons3, ih1, show j0 + (k' + 1) = j0 + 1 + k' by ring]
      · rw [show 3 * k' + 3 + 1 = (3 * k' + 1) + 3 by ring, getElem_cons3,
          ih2, show j0 + (k' + 1) = j0 + 1 + k' by ring]
      · rw [show 3 * k' + 3 + 2 = (3 * k' + 2) + 3 by ring, getElem_cons3,
          ih3]

theorem batchOuter_getElem (outcome : Nat → Nat → Bool)
    (targets : List String) :
    ∀ (ss : List String) (i0 m : Nat), m < ss.length →
      ∀ n, n < 3 * targets.length →
        (batchOuter outcome targets i0 ss)[3 * targets.length * m + n]? =
          (batchInner outcome (i0 + m) 1 targets)[n]? := by
  intro ss
  induction ss with
  | nil => intro i0 m hm; simp at hm
  | cons sp ss' ih =>
    intro i0 m hm n hn
    cases m with
    | zero =>
      simp only [batchOuter, Nat.mul_zero, Nat.zero_add, Nat.add_zero]
      rw [List.getElem?_append_left (by rw [batchInner_length]; exact hn)]
    | succ m' =>
      have hm' : m' < ss'.length := by simpa using hm
      simp only [batchOuter]
      have hlen : (batchInner outcome i0 1 targets).length =
          3 * targets.length := batchInner_length outcome i0 targets 1
      have hge : (batchInner outcome i0 1 targets).length ≤
          3 * targets.length * (m' + 1) + n := by
        rw [hlen]
        have : 3 * targets.length * 1 ≤ 3 * targets.length * (m' + 1) :=
          Nat.mul_le_mul_left _ (by omega)
        omega
      rw [List.getElem?_append_right hge, hlen,
        show 3 * targets.length * (m' + 1) + n - 3 * targets.length =
          3 * targets.length * m' + n by ring_nf; omega,
        ih (i0 + 1) m' hm' n hn,
        show i0 + 1 + m' = i0 + (m' + 1) by ring]

/-- **C7.** Strict sequentiality of the batch loop: every combination
`(i, j)` (1-based, in the nested sorted source-then-target order)
contributes the consecutive events request, completion, and a fixed
1-second sleep — the sleep also after failed iterations — at position
`3*((i-1)*|targets| + (j-1))` of the trace, and for any two combinations
in that order the earlier one's completion index is strictly below the
later one's request index: requests never overlap. -/
theorem run_batch_tests_sequential (sources targets : List String)
    (outcome : Nat → Nat → Bool) :
    (∀ i j, 1 ≤ i → i ≤ sources.length → 1 ≤ j → j ≤ targets.length →
      (run_batch_tests sources targets outcome)[3 * ((i - 1) * targets.length + (j - 1))]? =
        some (BatchEvent.request i j) ∧
      (run_batch_tests sources targets outcome)[3 * ((i - 1) * targets.length + (j - 1)) + 1]? =
        some (BatchEvent.complete i j (outcome i j)) ∧
      (run_batch_tests sources targets outcome)[3 * ((i - 1) * targets.length + (j - 1)) + 2]? =
        some (BatchEvent.sleeping 1)) ∧
    (∀ i j i' j', 1 ≤ i → 1 ≤ j → j ≤ targets.length → 1 ≤ i' → 1 ≤ j' →
      (i < i' ∨ (i = i' ∧ j < j')) →
      3 * ((i - 1) * targets.length + (j - 1)) + 1 <
        3 * ((i' - 1) * targets.length + (j' - 1))) := by
  constructor
  · intro i j hi hiS hj hjT
    have hm : i - 1 < sources.length := by omega
    have hk : j - 1 < targets.length := by omega
    have hn0 : 3 * (j - 1) < 3 * targets.length := by omega
    have hn1 : 3 * (j - 1) + 1 < 3 * targets.length := by omega
    have hn2 : 3 * (j - 1) + 2 < 3 * targets.length := by omega
    obtain ⟨g1, g2, g3⟩ := batchInner_getElem outcome (1 + (i - 1)) targets
      1 (j - 1) hk
    have hij : 1 + (i - 1) = i := by omega
    have hjj : 1 + (j - 1) = j := by omega
    rw [hij] at g1 g2 g3
    rw [hjj] at g1 g2
    have e0 := batchOuter_getElem outcome targets sources 1 (i - 1) hm
      (3 * (j - 1)) hn0
    have e1 := batchOuter_getElem outcome targets sources 1 (i - 1) hm
      (3 * (j - 1) + 1) hn1
    have e2 := batchOuter_getElem outcome targets sources 1 (i - 1) hm
      (3 * (j - 1) + 2) hn2
    rw [hij] at e0 e1 e2
    refine ⟨?_, ?_, ?_⟩
    · rw [run_batch_tests,
        show 3 * ((i - 1) * targets.length + (j - 1)) =
          3 * targets.length * (i - 1) + 3 * (j - 1) by ring,
        e0, g1]
    · rw [run_batch_tests,
        show 3 * ((i - 1) * targets.length + (j - 1)) + 1 =
          3 * targets.length * (i - 1) + (3 * (j - 1) + 1) by ring,
        e1, g2]
    · rw [run_batch_tests,
        show 3 * ((i - 1) * targets.length + (j - 1)) + 2 =
          3 * targets.length * (i - 1) + (3 * (j - 1) + 2) by ring,
        e2, g3]
  · intro i j i' j' hi hj hjT hi' hj' horder
    have key : (i - 1) * targets.length + (j - 1) <
        (i' - 1) * targets.length + (j' - 1) := by
      rcases horder with hlt | ⟨heq, hlt⟩
      · have h1 : (i - 1) * targets.length + (j - 1) <
            (i - 1) * targets.length + targets.length := by omega
        have h2 : (i - 1) * targets.length + targets.length =
            ((i - 1) + 1) * targets.length := by ring
        have h3 : ((i - 1) + 1) * targets.length ≤
            (i' - 1) * targets.length :=
          Nat.mul_le_mul_right _ (by omega)
        omega
      · subst heq
        omega
    omega

/-- Witness for C7 at two sources, two targets: the completion of
combination (1, 2) sits strictly before the request of (2, 1), with the
sleep in between. -/
theorem run_batch_tests_sequential_witness :
    (run_batch_tests ["s1", "s2"] ["t1", "t2"] (fun _ _ => false))[4]? =
      some (BatchEvent.complete 1 2 false) ∧
    (run_batch_tests ["s1", "s2"] ["t1", "t2"] (fun _ _ => false))[5]? =
      some (BatchEvent.sleeping 1) ∧
    (run_batch_tests ["s1", "s2"] ["t1", "t2"] (fun _ _ => false))[6]? =
      some (BatchEvent.request 2 1) ∧
    (4 : Nat) < 6 := by
  have h := run_batch_tests_sequential ["s1", "s2"] ["t1", "t2"]
    (fun _ _ => false)
  have h12 := h.1 1 2 (by decide) (by decide) (by decide) (by decide)
  have h21 := h.1 2 1 (by decide) (by decide) (by decide) (by decide)
  have hlt := h.2 1 2 2 1 (by decide) (by decide) (by decide) (by decide)
    (by decide) (Or.inl (by decide))
  refine ⟨?_, ?_, ?_, by simpa using hlt⟩
  · simpa using h12.2.1
  · simpa using h12.2.2
  · simpa using h21.1

end FaceSwap
